import Mathlib

/-!
Shallow embedding of the machiver repository (src/date.rs, src/manifest.rs,
src/copy.rs, src/main.rs) for checking its natural-language specification.

Modelling conventions:
* Rust strings are Lean `String`s (we work on `String.data : List Char`
  where character-level reasoning is needed).
* Machine integers are `Nat`/`Int`; byte buffers are `List Nat`.
* The external crates that the spec declares out of scope (the EXIF
  container decoder and the digest primitives `md5`/`sha2`) are
  parameters collected in the `Prims` structure: pure functions from the
  file bytes, exactly as the spec treats them.
* The filesystem is an explicit state: `FS` maps paths to byte contents,
  to modification times (already converted to local naive calendar time,
  absorbing the `DateTime<Local>` conversion of `date.rs`), and records
  the set of directories.  Fallible I/O returns `Except String`.
* `async` in the source is pure sequential control flow (the spec's
  concurrency model is a single logical thread), so `await` points
  disappear in the embedding.
-/

namespace Machiver

/-! ## Character and string utilities mirroring the Rust std behaviour -/

/-- Unicode `White_Space` property, as used by Rust's `char::is_whitespace`,
`str::trim` and `str::split_whitespace`. -/
def rustIsWs (c : Char) : Bool :=
  c.toNat = 9 || c.toNat = 10 || c.toNat = 11 || c.toNat = 12 || c.toNat = 13 ||
  c.toNat = 32 || c.toNat = 0x85 || c.toNat = 0xA0 || c.toNat = 0x1680 ||
  (0x2000 ≤ c.toNat && c.toNat ≤ 0x200A) || c.toNat = 0x2028 || c.toNat = 0x2029 ||
  c.toNat = 0x202F || c.toNat = 0x205F || c.toNat = 0x3000

/-- Rust `str::trim`: drop `White_Space` characters from both ends. -/
def rustTrim (s : String) : String :=
  String.mk (((s.data.dropWhile rustIsWs).reverse.dropWhile rustIsWs).reverse)

/-- Worker for `splitWsStr`: `acc` holds the current token, reversed. -/
def splitWsAux : List Char → List Char → List String
  | [], acc => if acc.isEmpty then [] else [String.mk acc.reverse]
  | c :: rest, acc =>
    if rustIsWs c then
      if acc.isEmpty then splitWsAux rest []
      else String.mk acc.reverse :: splitWsAux rest []
    else
      splitWsAux rest (c :: acc)

/-- Rust `str::split_whitespace` collected into a list: maximal runs of
non-whitespace characters, leading/trailing/repeated whitespace ignored. -/
def splitWsStr (s : String) : List String :=
  splitWsAux s.data []

/-- Drop a `\r` from the head of a reversed line accumulator (the `\r`
of a `\r\n` terminator). -/
def stripCrRev : List Char → List Char
  | [] => []
  | c :: t => if c = '\r' then t else c :: t

/-- Worker for `rustLines`; `acc` holds the current line, reversed.  A line
terminator is `\n`; a `\r` immediately before it is stripped; the final
terminator is optional. -/
def linesAux : List Char → List Char → List String
  | [], acc => if acc.isEmpty then [] else [String.mk acc.reverse]
  | c :: rest, acc =>
    if c = '\n' then
      String.mk (stripCrRev acc).reverse :: linesAux rest []
    else
      linesAux rest (c :: acc)

/-- Rust `str::lines` collected into a list. -/
def rustLines (s : String) : List String :=
  linesAux s.data []

/-- Worker for `containsSubstr` on character lists. -/
def containsSubstrC : List Char → List Char → Bool
  | [], pat => pat.isEmpty
  | c :: rest, pat => pat.isPrefixOf (c :: rest) || containsSubstrC rest pat

/-- Rust `str::contains` with a string pattern: `pat` occurs as a
contiguous substring of `s` (the empty pattern always matches). -/
def containsSubstr (s pat : String) : Bool :=
  containsSubstrC s.data pat.data

/-- ASCII lowercasing of one character, the fragment of Rust
`str::to_lowercase` relevant to the ASCII hex-and-dash strings it is
applied to in the source. -/
def lowerChar (c : Char) : Char :=
  if 65 ≤ c.toNat ∧ c.toNat ≤ 90 then Char.ofNat (c.toNat + 32) else c

/-- Rust `str::to_lowercase` (ASCII fragment, see `lowerChar`). -/
def asciiLower (s : String) : String :=
  String.mk (s.data.map lowerChar)

/-- Lowercase hexadecimal digit (`0`-`9`, `a`-`f`). -/
def isLowerHexDigit (c : Char) : Bool :=
  (48 ≤ c.toNat && c.toNat ≤ 57) || (97 ≤ c.toNat && c.toNat ≤ 102)

/-- Character `i` onward of the hyphenated uuid rendering: lowercase hex
digits with dashes at positions 8, 13, 18 and 23, 36 characters total. -/
def uuidHyphenated : List Char → Nat → Bool
  | [], i => i == 36
  | c :: rest, i =>
    (if i == 8 || i == 13 || i == 18 || i == 23 then c == '-'
     else isLowerHexDigit c) && uuidHyphenated rest (i + 1)

/-- The format contract of `Uuid::new_v4().to_string()` (the uuid
crate's hyphenated lowercase rendering of the random 128-bit value). -/
def isUuidStr (s : String) : Bool := uuidHyphenated s.data 0

/-- Decimal digit character for a value `d < 10`. -/
def digitChar (d : Nat) : Char := Char.ofNat (48 + d)

/-- Fuel-driven decimal rendering of a natural number (most significant
digit first); any `fuel > Nat.log10 n` is enough. -/
def natDigitsAux : Nat → Nat → List Char
  | 0, _ => []
  | fuel + 1, n =>
    if n < 10 then [digitChar n]
    else natDigitsAux fuel (n / 10) ++ [digitChar (n % 10)]

/-- Decimal digits of a natural number, as Rust's `{}` formatting emits. -/
def natDigits (n : Nat) : List Char := natDigitsAux (n + 1) n

/-- Rust `{}` formatting of an unsigned integer. -/
def natStr (n : Nat) : String := String.mk (natDigits n)

/-- Rust `{}` formatting of a signed integer (chrono years are `i32`). -/
def intStr (i : Int) : String :=
  if i < 0 then String.mk ('-' :: natDigits i.natAbs) else String.mk (natDigits i.toNat)

/-- Rust `{:02}` formatting: zero-pad to width 2. -/
def pad2 (n : Nat) : String :=
  if n < 10 then String.mk ('0' :: natDigits n) else String.mk (natDigits n)

/-! ## Calendar date-times (chrono `NaiveDateTime`, to second precision) -/

/-- A calendar date-time as produced by `chrono::NaiveDateTime`; the
pipeline only consumes `year`/`month`/`day` downstream.  The year is
signed as in chrono. -/
structure NaiveDT where
  year : Int
  month : Nat
  day : Nat
  hour : Nat
  minute : Nat
  second : Nat
deriving DecidableEq, Repr

/-- Proleptic-Gregorian leap year, as chrono uses. -/
def isLeapYear (y : Int) : Bool :=
  (y % 4 = 0 && y % 100 ≠ 0) || y % 400 = 0

/-- Days in a given month of a given year (0 for an invalid month). -/
def daysInMonth (y : Int) (m : Nat) : Nat :=
  if m = 1 then 31 else if m = 2 then (if isLeapYear y then 29 else 28)
  else if m = 3 then 31 else if m = 4 then 30 else if m = 5 then 31
  else if m = 6 then 30 else if m = 7 then 31 else if m = 8 then 31
  else if m = 9 then 30 else if m = 10 then 31 else if m = 11 then 30
  else if m = 12 then 31 else 0

/-- Validity of the parsed fields, as chrono checks when assembling a
`NaiveDateTime` (leap-second inputs, second = 60, are outside the model). -/
def validDT (d : NaiveDT) : Bool :=
  1 ≤ d.month && d.month ≤ 12 && 1 ≤ d.day && d.day ≤ daysInMonth d.year d.month &&
  d.hour ≤ 23 && d.minute ≤ 59 && d.second ≤ 59

/-- ASCII decimal digit test. -/
def isDigitChar (c : Char) : Bool := 48 ≤ c.toNat && c.toNat ≤ 57

/-- Value of an ASCII decimal digit. -/
def digitVal (c : Char) : Nat := c.toNat - 48

/-- Consume up to `maxW` leading decimal digits. -/
def scanDigits : Nat → List Char → (List Nat × List Char)
  | 0, l => ([], l)
  | _ + 1, [] => ([], [])
  | w + 1, c :: rest =>
    if isDigitChar c then
      let (ds, r) := scanDigits w rest
      (digitVal c :: ds, r)
    else ([], c :: rest)

/-- Assemble a digit list (most significant first) into a number. -/
def digitsToNat (ds : List Nat) : Nat := ds.foldl (fun a d => a * 10 + d) 0

/-- Skip leading whitespace, as chrono does before each numeric item. -/
def skipWs (l : List Char) : List Char := l.dropWhile rustIsWs

/-- chrono unsigned numeric item: optional leading whitespace then
1 to `maxW` digits. -/
def scanNum (maxW : Nat) (l : List Char) : Option (Nat × List Char) :=
  match scanDigits maxW (skipWs l) with
  | ([], _) => none
  | (ds, r) => some (digitsToNat ds, r)

/-- chrono signed numeric item (the `%Y` year): optional sign then digits. -/
def scanSigned (maxW : Nat) (l : List Char) : Option (Int × List Char) :=
  match skipWs l with
  | '-' :: rest =>
    match scanDigits maxW rest with
    | ([], _) => none
    | (ds, r) => some (-(Int.ofNat (digitsToNat ds)), r)
  | '+' :: rest =>
    match scanDigits maxW rest with
    | ([], _) => none
    | (ds, r) => some (Int.ofNat (digitsToNat ds), r)
  | l' =>
    match scanDigits maxW l' with
    | ([], _) => none
    | (ds, r) => some (Int.ofNat (digitsToNat ds), r)

/-- Match one literal character. -/
def expectChar (c : Char) : List Char → Option (List Char)
  | [] => none
  | x :: rest => if x = c then some rest else none

/-- chrono `NaiveDateTime::parse_from_str` with the fixed pattern
`"%Y-%m-%d %H:%M:%S"` used by `get_date`: signed 4-digit year, literal
dashes, whitespace, colon-separated time, full input consumed, fields
validated against the calendar. -/
def parseNdt (s : String) : Option NaiveDT :=
  match scanSigned 4 s.data with
  | none => none
  | some (y, r1) =>
    match expectChar '-' r1 with
    | none => none
    | some r2 =>
      match scanNum 2 r2 with
      | none => none
      | some (mo, r3) =>
        match expectChar '-' r3 with
        | none => none
        | some r4 =>
          match scanNum 2 r4 with
          | none => none
          | some (dy, r5) =>
            match scanNum 2 (skipWs r5) with
            | none => none
            | some (h, r6) =>
              match expectChar ':' r6 with
              | none => none
              | some r7 =>
                match scanNum 2 r7 with
                | none => none
                | some (mi, r8) =>
                  match expectChar ':' r8 with
                  | none => none
                  | some r9 =>
                    match scanNum 2 r9 with
                    | none => none
                    | some (sec, r10) =>
                      let d : NaiveDT := ⟨y, mo, dy, h, mi, sec⟩
                      if r10 = [] && validDT d then some d else none

/-! ## Paths (Rust `Path`/`PathBuf`, restricted to normal components) -/

/-- A filesystem path: an absolute flag plus its normal (named)
components.  `.`/`..` components are outside the model; the paths the
pipeline builds and traverses only use normal components. -/
structure RPath where
  absolute : Bool
  comps : List String
deriving DecidableEq, Repr

/-- The root path `/`. -/
def rootPath : RPath := ⟨true, []⟩

/-- Rust `Path::file_name`: the final normal component, `None` for a
root or empty path. -/
def fileName (p : RPath) : Option String := p.comps.getLast?

/-- Rust's split of a file name into stem and extension, applied to the
name's characters: the extension is the part after the last `.`, unless
there is no `.` or the only `.` is leading (hidden files). -/
def extOfName (name : String) : Option String :=
  match name.data.reverse.span (fun c => c ≠ '.') with
  | (_, []) => none
  | (_, ['.']) => none
  | (ext, _ :: _) => some (String.mk ext.reverse)

/-- Rust `Path::extension`. -/
def rustExtension (p : RPath) : Option String := (fileName p).bind extOfName

/-- Rust `Path::join` (the right operand replaces the left when absolute). -/
def joinPath (p q : RPath) : RPath :=
  if q.absolute then q else ⟨p.absolute, p.comps ++ q.comps⟩

/-- A relative single-component path, as `PathBuf::from(file_name)` builds. -/
def relFile (name : String) : RPath := ⟨false, [name]⟩

/-- Worker for `pathFromString`: split on `/`; `acc` is the current
component, reversed. -/
def splitSlashAux : List Char → List Char → List (List Char)
  | [], acc => [acc.reverse]
  | c :: rest, acc =>
    if c = '/' then acc.reverse :: splitSlashAux rest []
    else splitSlashAux rest (c :: acc)

/-- Whether a character list starts with `/`. -/
def startsSlash : List Char → Bool
  | [] => false
  | c :: _ => c == '/'

/-- Rust `PathBuf::from` on a rendered path string: a leading `/` makes
it absolute; the normal components are the nonempty slash-separated
pieces (repeated separators collapse). -/
def pathFromString (s : String) : RPath :=
  ⟨startsSlash s.data,
   ((splitSlashAux s.data []).filter (fun l => l ≠ [])).map String.mk⟩

/-- Rust `Path::display` rendering (enough for the error messages). -/
def pathDisplay (p : RPath) : String :=
  (if p.absolute then "/" else "") ++ String.intercalate "/" p.comps

/-! ## Filesystem state and external primitives -/

/-- One operation's view of the filesystem.  `files` maps a path to the
byte content a successful full read returns (absence means opening or
reading fails); `meta` maps a path to its modification time already
converted to local naive calendar time (absence means the metadata read
fails); `dirs` is the set of directories. -/
structure FS where
  files : List (RPath × List Nat)
  meta : List (RPath × NaiveDT)
  dirs : List RPath
deriving DecidableEq, Repr

/-- Association-list lookup. -/
def alookup {α β : Type} [DecidableEq α] : List (α × β) → α → Option β
  | [], _ => none
  | (k, v) :: rest, a => if a = k then some v else alookup rest a

/-- Association-list overwrite-or-insert. -/
def aupdate {α β : Type} [DecidableEq α] (l : List (α × β)) (a : α) (b : β) :
    List (α × β) :=
  (a, b) :: l.filter (fun kv => kv.1 ≠ a)

/-- Reading a file's full contents (`File::open` + `read_to_end`). -/
def readFile (fs : FS) (p : RPath) : Option (List Nat) := alookup fs.files p

/-- Reading a file's modification time (`metadata` + `modified`,
converted to local time). -/
def readMtime (fs : FS) (p : RPath) : Option NaiveDT := alookup fs.meta p

/-- Writing (creating or overwriting) a file's contents, the effect of
`async_fs::copy` at the destination. -/
def writeFile (fs : FS) (p : RPath) (bytes : List Nat) : FS :=
  { fs with files := aupdate fs.files p bytes }

/-- All ancestor paths of `p`, including `p` itself. -/
def ancestorsOf (p : RPath) : List RPath :=
  (List.range (p.comps.length + 1)).map (fun i => ⟨p.absolute, p.comps.take i⟩)

/-- `async_fs::create_dir_all`: idempotently ensure the directory chain
exists (pre-existing directories are not an error). -/
def create_dir_all (fs : FS) (p : RPath) : FS :=
  { fs with
    dirs := (ancestorsOf p).foldl (fun ds d => if ds.contains d then ds else d :: ds) fs.dirs }

/-- The external primitives the spec leaves out of scope, as pure
functions: the EXIF container decoder (yielding the textual
`Tag::DateTime`/`In::PRIMARY` field of the container parsed from the
bytes, if any) and the three digest primitives (bytes to hex string). -/
structure Prims where
  exifRead : List Nat → Option String
  md5Hex : List Nat → String
  sha256Hex : List Nat → String
  sha512Hex : List Nat → String

end Machiver

namespace Machiver.Date

/-- `date.rs::get_date`: open and fully read the file (an I/O failure
here propagates), try to extract and parse the EXIF `DateTime` field of
the primary image with pattern `%Y-%m-%d %H:%M:%S` (decoder or parse
failures silently fall through), otherwise fall back to the file's
modification time converted to local time (a metadata failure
propagates). -/
def get_date (prims : Prims) (fs : FS) (path : RPath) : Except String NaiveDT :=
  match readFile fs path with
  | none => Except.error "No such file or directory (os error 2)"
  | some buffer =>
    match (prims.exifRead buffer).bind (fun date_str => parseNdt date_str) with
    | some date => Except.ok date
    | none =>
      match readMtime fs path with
      | none => Except.error "file metadata is unavailable"
      | some modified => Except.ok modified

end Machiver.Date

namespace Machiver.Manifest

open Machiver

/-- `manifest.rs::HashAlgorithm`. -/
inductive HashAlgorithm where
  | MD5
  | SHA256
  | SHA512
deriving DecidableEq, Repr

/-- `manifest.rs::HashAlgorithm::from_filename`: inspect the path's file
name (empty when absent) for the substrings `md5`, `sha256`, `sha512` in
that order; default to SHA256 with a warning (the returned flag records
whether the `eprintln!` warning fired).  Total: never fails. -/
def from_filename (path : RPath) : HashAlgorithm × Bool :=
  let filename := (fileName path).getD ""
  if containsSubstr filename "md5" then (HashAlgorithm.MD5, false)
  else if containsSubstr filename "sha256" then (HashAlgorithm.SHA256, false)
  else if containsSubstr filename "sha512" then (HashAlgorithm.SHA512, false)
  else (HashAlgorithm.SHA256, true)

/-- `manifest.rs::HashAlgorithm::calculate_hash`, dispatching to the
out-of-scope digest primitives. -/
def calculate_hash (prims : Prims) (alg : HashAlgorithm) (data : List Nat) : String :=
  match alg with
  | HashAlgorithm.MD5 => prims.md5Hex data
  | HashAlgorithm.SHA256 => prims.sha256Hex data
  | HashAlgorithm.SHA512 => prims.sha512Hex data

set_option linter.dupNamespace false

/-- `manifest.rs::Manifest`: the ordered checksum collection plus the
selected algorithm. -/
structure Manifest where
  checksums : List String
  algorithm : HashAlgorithm
deriving DecidableEq, Repr

/-- The non-empty lines of the manifest text:
`content.lines().filter(|line| !line.trim().is_empty())`. -/
def manifestLines (content : String) : List String :=
  (rustLines content).filter (fun line => !(rustTrim line).isEmpty)

/-- The indexing `parts[0]` into the whitespace-split of a line: Rust
panics when the split is empty, modelled as an error value. -/
def firstToken (line : String) : Except String String :=
  match splitWsStr line with
  | [] => Except.error "index out of bounds: the len is 0 but the index is 0"
  | t :: _ => Except.ok t

/-- Effectful map threading the potential `parts[0]` panic. -/
def mapTokens : List String → Except String (List String)
  | [] => Except.ok []
  | l :: rest =>
    match firstToken l with
    | Except.error e => Except.error e
    | Except.ok t =>
      match mapTokens rest with
      | Except.error e => Except.error e
      | Except.ok ts => Except.ok (t :: ts)

/-- `manifest.rs::parse_manifest`, applied to the text read from the
manifest path: keep the non-empty lines, take the first
whitespace-delimited token of each, fail when no checksums result, and
pair them with the algorithm selected from the file name. -/
def parse_manifest (path : RPath) (content : String) : Except String Manifest :=
  match mapTokens (manifestLines content) with
  | Except.error e => Except.error e
  | Except.ok checksums =>
    if checksums.isEmpty then Except.error "Manifest file is empty"
    else Except.ok ⟨checksums, (from_filename path).1⟩

/-- The linear scan of `is_duplicate`'s `for` loop: first checksum equal
to the digest (exact string equality) short-circuits with the source. -/
def scanChecksums (digest : String) (source : RPath) : List String → Option RPath
  | [] => none
  | checksum :: rest =>
    if digest = checksum then some source else scanChecksums digest source rest

/-- `manifest.rs::is_duplicate`: `None` without a manifest; otherwise
read the file's full contents, digest them with the manifest's
algorithm, and return the source path when the digest equals some
manifest entry. -/
def is_duplicate (prims : Prims) (fs : FS) (source : RPath)
    (manifest : Option Manifest) : Except String (Option RPath) :=
  match manifest with
  | none => Except.ok none
  | some m =>
    match readFile fs source with
    | none => Except.error "No such file or directory (os error 2)"
    | some buffer =>
      Except.ok (scanChecksums (calculate_hash prims m.algorithm buffer) source m.checksums)

end Machiver.Manifest

namespace Machiver.Copy

open Machiver

/-- `copy.rs::parse_manifest`: same line pipeline as the manifest
module's parser, yielding the bare checksum list. -/
def parse_manifest (content : String) : Except String (List String) :=
  match Machiver.Manifest.mapTokens (Machiver.Manifest.manifestLines content) with
  | Except.error e => Except.error e
  | Except.ok checksums =>
    if checksums.isEmpty then Except.error "Manifest file is empty"
    else Except.ok checksums

/-- `copy.rs::is_duplicate`: `None` without a manifest; otherwise read
the file's full contents, compute their MD5 digest, and return the
source path when the digest equals some manifest entry. -/
def is_duplicate (prims : Prims) (fs : FS) (source : RPath)
    (manifest : Option (List String)) : Except String (Option RPath) :=
  match manifest with
  | none => Except.ok none
  | some manifest_paths =>
    match readFile fs source with
    | none => Except.error "No such file or directory (os error 2)"
    | some buffer =>
      Except.ok (Machiver.Manifest.scanChecksums (prims.md5Hex buffer) source manifest_paths)

/-- `copy.rs::generate_uuid_filename`, with the freshly drawn
`Uuid::new_v4().to_string()` supplied as the `uuid` argument (the uuid
crate renders it as 36 lowercase hex-and-dash characters): lowercase it
and append the source's extension after a dot when there is a nonempty
one. -/
def generate_uuid_filename (uuid : String) (original : RPath) : RPath :=
  let extension := (rustExtension original).getD ""
  let u := asciiLower uuid
  if extension.isEmpty then relFile u
  else relFile (u ++ "." ++ extension)

/-- The destination file-name selection of `copy_file` (its `file_name`
binding): a generated identifier when `rename` is set, otherwise the
source's own file name, failing when the source has none. -/
def targetFileName (uuid : String) (source : RPath) (rename : Bool) :
    Except String RPath :=
  if rename then Except.ok (generate_uuid_filename uuid source)
  else
    match fileName source with
    | some name => Except.ok (relFile name)
    | none => Except.error "Source file has no name"

/-- The date-bucket string `format!("{}/{:02}/{:02}", year, month, day)`
of `copy_file`. -/
def formatDatePath (d : NaiveDT) : String :=
  intStr d.year ++ "/" ++ pad2 d.month ++ "/" ++ pad2 d.day

/-- `copy.rs::copy_file` as a state transformer: duplicate check (early
return of the source path with the filesystem untouched), date
resolution, date-bucket directory creation, file-name selection, byte
copy to the destination (overwriting), returning the destination path.
On an error the returned value carries only the message; directories
already created on disk before a later failure are not tracked (the
spec's propagation policy notes work already performed is not rolled
back, and no property here observes the state after a failure). -/
def copy_file (prims : Prims) (uuid : String) (fs : FS) (source destination : RPath)
    (rename : Bool) (manifest : Option (List String)) : Except String (RPath × FS) :=
  match is_duplicate prims fs source manifest with
  | Except.error e => Except.error e
  | Except.ok (some duplicate_path) => Except.ok (duplicate_path, fs)
  | Except.ok none =>
    match Machiver.Date.get_date prims fs source with
    | Except.error e => Except.error e
    | Except.ok date =>
      let date_path := pathFromString (formatDatePath date)
      let target_dir := joinPath destination date_path
      let fs1 := create_dir_all fs target_dir
      match targetFileName uuid source rename with
      | Except.error e => Except.error e
      | Except.ok file_name =>
        let target_path := joinPath target_dir file_name
        match readFile fs1 source with
        | none => Except.error "No such file or directory (os error 2)"
        | some bytes => Except.ok (target_path, writeFile fs1 target_path bytes)

/-- The source tree that one `process_path` invocation traverses: the
config's path resolved to a regular file, a directory with its entries
in filesystem enumeration order, or any other path kind (non-existent,
socket, dangling symlink, ...). -/
inductive FTree where
  | file (path : RPath)
  | dir (path : RPath) (entries : List FTree)
  | other (path : RPath)
deriving Repr

/-- The "directory without recursive flag" error message of
`_process_path`. -/
def dirErrMsg (p : RPath) : String :=
  "'" ++ pathDisplay p ++ "' is a directory. Use --recursive to process directories"

mutual

/-- `copy.rs::_process_path`: a regular file is copied (one result); a
directory with the recursive flag has its entries processed in
enumeration order under an identical config (same destination,
recursive, rename and manifest), concatenating results and aborting on
the first error; a directory without the flag is the distinctly worded
error; any other path kind silently yields no result.  `uuidOf` supplies
the fresh uuid drawn for each file's copy step. -/
def processTree (prims : Prims) (uuidOf : RPath → String) (destination : RPath)
    (recursive rename : Bool) (manifest : Option (List String)) (fs : FS) :
    FTree → Except String (List RPath × FS)
  | FTree.file p =>
    match copy_file prims (uuidOf p) fs p destination rename manifest with
    | Except.error e => Except.error e
    | Except.ok (r, fs') => Except.ok ([r], fs')
  | FTree.dir p entries =>
    if recursive then
      processEntries prims uuidOf destination recursive rename manifest fs entries
    else Except.error (dirErrMsg p)
  | FTree.other _ => Except.ok ([], fs)

/-- The `while let` loop over directory entries of `_process_path`. -/
def processEntries (prims : Prims) (uuidOf : RPath → String) (destination : RPath)
    (recursive rename : Bool) (manifest : Option (List String)) (fs : FS) :
    List FTree → Except String (List RPath × FS)
  | [] => Except.ok ([], fs)
  | t :: ts =>
    match processTree prims uuidOf destination recursive rename manifest fs t with
    | Except.error e => Except.error e
    | Except.ok (rs, fs1) =>
      match processEntries prims uuidOf destination recursive rename manifest fs1 ts with
      | Except.error e => Except.error e
      | Except.ok (rest, fs2) => Except.ok (rs ++ rest, fs2)

end

/-- `copy.rs::process_path` is a pinned wrapper around `_process_path`. -/
def process_path (prims : Prims) (uuidOf : RPath → String) (destination : RPath)
    (recursive rename : Bool) (manifest : Option (List String)) (fs : FS)
    (t : FTree) : Except String (List RPath × FS) :=
  processTree prims uuidOf destination recursive rename manifest fs t

end Machiver.Copy

namespace Machiver

/-! ## Helper lemmas -/

theorem splitWsAux_ne_nil_of_acc (l : List Char) :
    ∀ acc : List Char, acc ≠ [] → splitWsAux l acc ≠ [] := by
  induction l with
  | nil =>
    intro acc h
    have : acc.isEmpty = false := by
      cases acc with
      | nil => exact absurd rfl h
      | cons a t => rfl
    simp [splitWsAux, this]
  | cons c rest ih =>
    intro acc h
    have hne : acc.isEmpty = false := by
      cases acc with
      | nil => exact absurd rfl h
      | cons a t => rfl
    by_cases hw : rustIsWs c
    · simp [splitWsAux, hw, hne]
    · simp only [splitWsAux, hw, if_false]
      exact ih (c :: acc) (by simp)

theorem splitWsAux_ne_nil (l : List Char) :
    ∀ acc : List Char, (∃ c ∈ l, rustIsWs c = false) → splitWsAux l acc ≠ [] := by
  induction l with
  | nil => intro acc h; obtain ⟨c, hc, _⟩ := h; exact absurd hc (by simp)
  | cons c rest ih =>
    intro acc h
    simp only [splitWsAux]
    by_cases hw : rustIsWs c
    · simp only [hw, if_true]
      obtain ⟨x, hx, hxw⟩ := h
      have hxr : x ∈ rest := by
        cases hx with
        | head => rw [hw] at hxw; cases hxw
        | tail _ h => exact h
      by_cases hacc : acc.isEmpty
      · simp only [hacc, if_true]
        exact ih [] ⟨x, hxr, hxw⟩
      · simp only [hacc, if_false]
        simp
    · simp only [hw, if_false]
      exact splitWsAux_ne_nil_of_acc rest (c :: acc) (by simp)

theorem rustTrim_all_ws (s : String) (h : ∀ c ∈ s.data, rustIsWs c = true) :
    rustTrim s = "" := by
  have h1 : s.data.dropWhile rustIsWs = [] := List.dropWhile_eq_nil_iff.mpr h
  simp [rustTrim, h1]

theorem splitWsStr_ne_nil_of_trim (line : String) (h : (rustTrim line).isEmpty = false) :
    splitWsStr line ≠ [] := by
  apply splitWsAux_ne_nil
  by_contra hall
  push_neg at hall
  have hallws : ∀ c ∈ line.data, rustIsWs c = true := by
    intro c hc
    have := hall c hc
    revert this
    cases rustIsWs c <;> simp
  have := rustTrim_all_ws line hallws
  rw [this] at h
  simp [String.isEmpty] at h

theorem mem_manifestLines_trim (content : String) (l : String)
    (h : l ∈ Manifest.manifestLines content) : (rustTrim l).isEmpty = false := by
  have := List.of_mem_filter h
  revert this
  cases (rustTrim l).isEmpty <;> simp

/-- Total first-token extraction, for stating what `parse_manifest`
produces on the lines the filter retains. -/
def tokenOf (l : String) : String := (splitWsStr l).headD ""

theorem firstToken_ok (line : String) (h : (rustTrim line).isEmpty = false) :
    Manifest.firstToken line = Except.ok (tokenOf line) := by
  have hn := splitWsStr_ne_nil_of_trim line h
  unfold Manifest.firstToken tokenOf
  cases hsp : splitWsStr line with
  | nil => exact absurd hsp hn
  | cons t ts => simp

theorem mapTokens_ok (lines : List String)
    (h : ∀ l ∈ lines, (rustTrim l).isEmpty = false) :
    Manifest.mapTokens lines = Except.ok (lines.map tokenOf) := by
  induction lines with
  | nil => simp [Manifest.mapTokens]
  | cons l rest ih =>
    have h1 := firstToken_ok l (h l (by simp))
    have h2 := ih (fun x hx => h x (by simp [hx]))
    simp [Manifest.mapTokens, h1, h2]

theorem scanChecksums_eq (digest : String) (source : RPath) (cs : List String) :
    Manifest.scanChecksums digest source cs =
      (if cs.contains digest then some source else none) := by
  induction cs with
  | nil => simp [Manifest.scanChecksums]
  | cons c rest ih =>
    simp only [Manifest.scanChecksums, ih, List.contains_cons]
    by_cases h : digest = c
    · subst h; simp
    · have hb : (digest == c) = false := beq_eq_false_iff_ne.mpr h
      simp [h, hb]

theorem scanChecksums_some (digest : String) (source p : RPath) (cs : List String)
    (h : Manifest.scanChecksums digest source cs = some p) : p = source := by
  rw [scanChecksums_eq] at h
  by_cases hc : cs.contains digest
  · rw [if_pos hc] at h; exact (Option.some_inj.mp h).symm
  · rw [if_neg hc] at h; cases h

theorem alookup_aupdate_self {α β : Type} [DecidableEq α] (l : List (α × β)) (a : α) (b : β) :
    alookup (aupdate l a b) a = some b := by
  simp [aupdate, alookup]

theorem readFile_create_dir_all (fs : FS) (d p : RPath) :
    readFile (create_dir_all fs d) p = readFile fs p := rfl

theorem readFile_writeFile_self (fs : FS) (p : RPath) (bytes : List Nat) :
    readFile (writeFile fs p bytes) p = some bytes :=
  alookup_aupdate_self fs.files p bytes

theorem digitChar_toNat (d : Nat) (h : d < 10) : (digitChar d).toNat = 48 + d := by
  interval_cases d <;> rfl

theorem natDigitsAux_digits : ∀ fuel n : Nat, ∀ c ∈ natDigitsAux fuel n,
    48 ≤ c.toNat ∧ c.toNat ≤ 57 := by
  intro fuel
  induction fuel with
  | zero => intro n c hc; simp [natDigitsAux] at hc
  | succ f ih =>
    intro n c hc
    simp only [natDigitsAux] at hc
    by_cases h : n < 10
    · rw [if_pos h] at hc
      simp at hc
      subst hc
      rw [digitChar_toNat n h]
      omega
    · rw [if_neg h] at hc
      rcases List.mem_append.mp hc with h1 | h2
      · exact ih (n / 10) c h1
      · simp at h2
        subst h2
        rw [digitChar_toNat (n % 10) (Nat.mod_lt n (by omega))]
        omega

theorem natDigits_digits (n : Nat) : ∀ c ∈ natDigits n, 48 ≤ c.toNat ∧ c.toNat ≤ 57 :=
  natDigitsAux_digits (n + 1) n

theorem natDigits_ne_nil (n : Nat) : natDigits n ≠ [] := by
  simp only [natDigits, natDigitsAux]
  split <;> simp

theorem not_slash_of_digit (c : Char) (h : 48 ≤ c.toNat ∧ c.toNat ≤ 57) : c ≠ '/' := by
  intro hc
  subst hc
  exact absurd h (by decide)

theorem intStr_no_slash (i : Int) : ∀ c ∈ (intStr i).data, c ≠ '/' := by
  intro c hc
  unfold intStr at hc
  by_cases h : i < 0
  · rw [if_pos h] at hc
    simp only [String.mk] at hc
    rcases List.mem_cons.mp hc with rfl | hm
    · decide
    · exact not_slash_of_digit c (natDigits_digits _ c hm)
  · rw [if_neg h] at hc
    exact not_slash_of_digit c (natDigits_digits _ c hc)

theorem intStr_ne_nil (i : Int) : (intStr i).data ≠ [] := by
  unfold intStr
  by_cases h : i < 0
  · rw [if_pos h]; simp
  · rw [if_neg h]
    simp only [String.mk]
    exact natDigits_ne_nil _

theorem pad2_no_slash (n : Nat) : ∀ c ∈ (pad2 n).data, c ≠ '/' := by
  intro c hc
  unfold pad2 at hc
  by_cases h : n < 10
  · rw [if_pos h] at hc
    simp only [String.mk] at hc
    rcases List.mem_cons.mp hc with rfl | hm
    · decide
    · exact not_slash_of_digit c (natDigits_digits _ c hm)
  · rw [if_neg h] at hc
    exact not_slash_of_digit c (natDigits_digits _ c hc)

theorem pad2_ne_nil (n : Nat) : (pad2 n).data ≠ [] := by
  unfold pad2
  by_cases h : n < 10
  · rw [if_pos h]; simp
  · rw [if_neg h]
    simp only [String.mk]
    exact natDigits_ne_nil _

theorem splitSlashAux_no_slash (xs : List Char) (h : ∀ c ∈ xs, c ≠ '/') :
    ∀ acc, splitSlashAux xs acc = [acc.reverse ++ xs] := by
  induction xs with
  | nil => intro acc; simp [splitSlashAux]
  | cons c rest ih =>
    intro acc
    have hc : c ≠ '/' := h c (by simp)
    simp only [splitSlashAux, if_neg hc]
    rw [ih (fun x hx => h x (by simp [hx])) (c :: acc)]
    simp

theorem splitSlashAux_append (xs : List Char) (h : ∀ c ∈ xs, c ≠ '/') :
    ∀ acc rest, splitSlashAux (xs ++ '/' :: rest) acc =
      (acc.reverse ++ xs) :: splitSlashAux rest [] := by
  induction xs with
  | nil => intro acc rest; simp [splitSlashAux]
  | cons c xs' ih =>
    intro acc rest
    have hc : c ≠ '/' := h c (by simp)
    simp only [List.cons_append, splitSlashAux, if_neg hc, List.append_eq]
    rw [ih (fun x hx => h x (by simp [hx])) (c :: acc) rest]
    simp

theorem string_mk_data (s : String) : String.mk s.data = s := by
  cases s; rfl

theorem data_append3 (a b c d e : String) :
    (a ++ b ++ c ++ d ++ e).data = a.data ++ b.data ++ c.data ++ d.data ++ e.data := by
  simp [String.data_append]

theorem pathFromString_formatDatePath (d : NaiveDT) :
    pathFromString (Copy.formatDatePath d) =
      ⟨false, [intStr d.year, pad2 d.month, pad2 d.day]⟩ := by
  have hdata : (Copy.formatDatePath d).data =
      (intStr d.year).data ++ '/' :: ((pad2 d.month).data ++ '/' :: (pad2 d.day).data) := by
    unfold Copy.formatDatePath
    rw [data_append3]
    simp [String.mk]
  unfold pathFromString
  rw [hdata]
  have hy := intStr_no_slash d.year
  have hm := pad2_no_slash d.month
  have hd := pad2_no_slash d.day
  rw [splitSlashAux_append _ hy, splitSlashAux_append _ hm, splitSlashAux_no_slash _ hd]
  have habs : startsSlash ((intStr d.year).data ++
      '/' :: ((pad2 d.month).data ++ '/' :: (pad2 d.day).data)) = false := by
    cases hds : (intStr d.year).data with
    | nil => exact absurd hds (intStr_ne_nil d.year)
    | cons c t =>
      have hc : c ≠ '/' := by
        apply intStr_no_slash d.year
        rw [hds]; simp
      simp [startsSlash, hc]
  rw [habs]
  have hfy : ((intStr d.year).data ≠ ([] : List Char)) := intStr_ne_nil d.year
  have hfm : ((pad2 d.month).data ≠ ([] : List Char)) := pad2_ne_nil d.month
  have hfd : ((pad2 d.day).data ≠ ([] : List Char)) := pad2_ne_nil d.day
  simp only [List.nil_append, List.reverse_nil, List.filter]
  simp [hfy, hfm, hfd, string_mk_data]

theorem containsSubstrC_append_left (l lc pat : List Char)
    (h : containsSubstrC lc pat = true) : containsSubstrC (l ++ lc) pat = true := by
  induction l with
  | nil => simpa using h
  | cons c rest ih =>
    simp only [List.cons_append, containsSubstrC, List.append_eq]
    rw [ih]
    simp

theorem containsSubstrC_here (pat rest : List Char) :
    containsSubstrC (pat ++ rest) pat = true := by
  cases pat with
  | nil =>
    cases rest with
    | nil => rfl
    | cons c t => simp [containsSubstrC]
  | cons p t =>
    simp only [List.cons_append, containsSubstrC, List.append_eq]
    have hpre : List.isPrefixOf (p :: t) (p :: (t ++ rest)) = true := by
      rw [List.isPrefixOf_iff_prefix]
      exact ⟨rest, by simp⟩
    rw [hpre]
    simp

theorem containsSubstr_middle (a b c : String) :
    containsSubstr (a ++ b ++ c) b = true := by
  unfold containsSubstr
  rw [String.data_append, String.data_append]
  rw [List.append_assoc]
  exact containsSubstrC_append_left a.data (b.data ++ c.data) b.data
    (containsSubstrC_here b.data c.data)

theorem uuidHyphenated_chars : ∀ l : List Char, ∀ i : Nat,
    uuidHyphenated l i = true → ∀ c ∈ l, isLowerHexDigit c = true ∨ c = '-' := by
  intro l
  induction l with
  | nil => intro i _ c hc; simp at hc
  | cons x rest ih =>
    intro i h c hc
    simp only [uuidHyphenated, Bool.and_eq_true] at h
    rcases List.mem_cons.mp hc with rfl | hm
    · rcases h with ⟨h1, _⟩
      by_cases hi : (i == 8 || i == 13 || i == 18 || i == 23) = true
      · rw [if_pos hi] at h1
        right
        exact eq_of_beq h1
      · rw [if_neg hi] at h1
        left
        exact h1
    · exact ih (i + 1) h.2 c hm

theorem uuidHyphenated_length : ∀ l : List Char, ∀ i : Nat,
    uuidHyphenated l i = true → l.length + i = 36 := by
  intro l
  induction l with
  | nil =>
    intro i h
    simp only [uuidHyphenated, beq_iff_eq] at h
    simp [h]
  | cons x rest ih =>
    intro i h
    simp only [uuidHyphenated, Bool.and_eq_true] at h
    have := ih (i + 1) h.2
    simp only [List.length_cons]
    omega

theorem lowerChar_fixed (c : Char) (h : isLowerHexDigit c = true ∨ c = '-') :
    lowerChar c = c := by
  unfold lowerChar
  rw [if_neg]
  rcases h with h | rfl
  · simp only [isLowerHexDigit, Bool.or_eq_true, Bool.and_eq_true,
      decide_eq_true_eq] at h
    omega
  · decide

theorem map_lowerChar_id (l : List Char)
    (h : ∀ c ∈ l, isLowerHexDigit c = true ∨ c = '-') : l.map lowerChar = l := by
  induction l with
  | nil => rfl
  | cons c rest ih =>
    simp only [List.map_cons]
    rw [lowerChar_fixed c (h c (by simp)), ih (fun x hx => h x (by simp [hx]))]

theorem asciiLower_of_uuid (s : String) (h : isUuidStr s = true) :
    asciiLower s = s := by
  unfold asciiLower
  rw [map_lowerChar_id s.data (uuidHyphenated_chars s.data 0 h), string_mk_data]

theorem uuid_length (s : String) (h : isUuidStr s = true) : s.data.length = 36 := by
  have := uuidHyphenated_length s.data 0 h
  omega

theorem error_msg_eq {α : Type} (a b : String)
    (h : (Except.error a : Except String α) = Except.error b) : b = a :=
  (Except.error.inj h).symm

theorem is_duplicate_error (prims : Prims) (fs : FS) (source : RPath)
    (manifest : Option (List String)) (msg : String)
    (h : Copy.is_duplicate prims fs source manifest = Except.error msg) :
    msg = "No such file or directory (os error 2)" := by
  unfold Copy.is_duplicate at h
  split at h
  · exact Except.noConfusion h
  · split at h
    · exact error_msg_eq _ _ h
    · exact Except.noConfusion h

theorem get_date_error (prims : Prims) (fs : FS) (p : RPath) (msg : String)
    (h : Date.get_date prims fs p = Except.error msg) :
    msg = "No such file or directory (os error 2)" ∨
      msg = "file metadata is unavailable" := by
  unfold Date.get_date at h
  split at h
  · exact Or.inl (error_msg_eq _ _ h)
  · split at h
    · exact Except.noConfusion h
    · split at h
      · exact Or.inr (error_msg_eq _ _ h)
      · exact Except.noConfusion h

theorem targetFileName_error (uuid : String) (source : RPath) (rename : Bool)
    (msg : String) (h : Copy.targetFileName uuid source rename = Except.error msg) :
    msg = "Source file has no name" := by
  unfold Copy.targetFileName at h
  split at h
  · exact Except.noConfusion h
  · split at h
    · exact Except.noConfusion h
    · exact error_msg_eq _ _ h

/-- The set of error messages a `copy_file` step can produce. -/
def copyFileErrs : List String :=
  ["No such file or directory (os error 2)", "file metadata is unavailable",
   "Source file has no name"]

theorem copy_file_error_mem (prims : Prims) (uuid : String) (fs : FS)
    (source destination : RPath) (rename : Bool) (manifest : Option (List String))
    (msg : String)
    (h : Copy.copy_file prims uuid fs source destination rename manifest =
      Except.error msg) : msg ∈ copyFileErrs := by
  cases hd : Copy.is_duplicate prims fs source manifest with
  | error e =>
    simp only [Copy.copy_file, hd] at h
    have he := error_msg_eq _ _ h
    rw [he, is_duplicate_error prims fs source manifest e hd]
    simp [copyFileErrs]
  | ok od =>
    cases od with
    | some p =>
      simp only [Copy.copy_file, hd] at h
      exact Except.noConfusion h
    | none =>
      simp only [Copy.copy_file, hd] at h
      cases hg : Date.get_date prims fs source with
      | error e =>
        simp only [hg] at h
        have he := error_msg_eq _ _ h
        rw [he]
        rcases get_date_error prims fs source e hg with h1 | h1 <;>
          simp [copyFileErrs, h1]
      | ok date =>
        simp only [hg] at h
        cases hf : Copy.targetFileName uuid source rename with
        | error e =>
          simp only [hf] at h
          have he := error_msg_eq _ _ h
          rw [he, targetFileName_error uuid source rename e hf]
          simp [copyFileErrs]
        | ok fn =>
          simp only [hf] at h
          cases hr : readFile (create_dir_all fs
              (joinPath destination (pathFromString (Copy.formatDatePath date)))) source with
          | none =>
            simp only [hr] at h
            have he := error_msg_eq _ _ h
            simp [copyFileErrs, he]
          | some bytes =>
            simp only [hr] at h
            exact Except.noConfusion h

theorem copyFileErrs_no_marker (msg : String) (h : msg ∈ copyFileErrs) :
    containsSubstr msg "Use --recursive" = false := by
  rcases List.mem_cons.mp h with rfl | h
  · decide
  · rcases List.mem_cons.mp h with rfl | h
    · decide
    · rcases List.mem_cons.mp h with rfl | h
      · decide
      · simp at h

theorem processEntries_err_mem (prims : Prims) (uuidOf : RPath → String)
    (destination : RPath) (rename : Bool) (manifest : Option (List String)) :
    ∀ es : List Copy.FTree,
    (∀ t ∈ es, ∀ fs msg,
      Copy.processTree prims uuidOf destination true rename manifest fs t =
        Except.error msg → msg ∈ copyFileErrs) →
    ∀ fs msg,
      Copy.processEntries prims uuidOf destination true rename manifest fs es =
        Except.error msg → msg ∈ copyFileErrs := by
  intro es
  induction es with
  | nil =>
    intro _ fs msg h
    simp only [Copy.processEntries] at h
    exact Except.noConfusion h
  | cons t ts ih =>
    intro hall fs msg h
    simp only [Copy.processEntries] at h
    cases hpt : Copy.processTree prims uuidOf destination true rename manifest fs t with
    | error e =>
      simp only [hpt] at h
      rw [error_msg_eq _ _ h]
      exact hall t (by simp) fs e hpt
    | ok r =>
      obtain ⟨rs0, fsa⟩ := r
      simp only [hpt] at h
      cases hpe : Copy.processEntries prims uuidOf destination true rename manifest fsa ts with
      | error e =>
        simp only [hpe] at h
        rw [error_msg_eq _ _ h]
        exact ih (fun x hx => hall x (by simp [hx])) fsa e hpe
      | ok r2 =>
        obtain ⟨rs2, fs2⟩ := r2
        simp only [hpe] at h
        exact Except.noConfusion h

theorem processTree_err_mem (prims : Prims) (uuidOf : RPath → String)
    (destination : RPath) (rename : Bool) (manifest : Option (List String)) :
    ∀ n : Nat, ∀ t : Copy.FTree, sizeOf t ≤ n → ∀ fs msg,
    Copy.processTree prims uuidOf destination true rename manifest fs t =
      Except.error msg → msg ∈ copyFileErrs := by
  intro n
  induction n using Nat.strong_induction_on with
  | _ n ih =>
    intro t hsz fs msg h
    cases t with
    | file p =>
      simp only [Copy.processTree] at h
      cases hc : Copy.copy_file prims (uuidOf p) fs p destination rename manifest with
      | error e =>
        simp only [hc] at h
        rw [error_msg_eq _ _ h]
        exact copy_file_error_mem prims (uuidOf p) fs p destination rename manifest e hc
      | ok r =>
        obtain ⟨rp, fsp⟩ := r
        simp only [hc] at h
        exact Except.noConfusion h
    | other p =>
      simp only [Copy.processTree] at h
      exact Except.noConfusion h
    | dir p es =>
      simp only [Copy.processTree, if_true] at h
      apply processEntries_err_mem prims uuidOf destination rename manifest es _ fs msg h
      intro t' ht' fs' msg' h'
      have hlt : sizeOf t' < sizeOf (Copy.FTree.dir p es) := by
        have := List.sizeOf_lt_of_mem ht'
        simp only [Copy.FTree.dir.sizeOf_spec]
        omega
      exact ih (sizeOf t') (by omega) t' le_rfl fs' msg' h'

theorem processEntries_append_err (prims : Prims) (uuidOf : RPath → String)
    (destination : RPath) (recursive rename : Bool) (manifest : Option (List String)) :
    ∀ es1 : List Copy.FTree, ∀ fs rs fs1,
    Copy.processEntries prims uuidOf destination recursive rename manifest fs es1 =
      Except.ok (rs, fs1) →
    ∀ t es2 msg,
    Copy.processTree prims uuidOf destination recursive rename manifest fs1 t =
      Except.error msg →
    Copy.processEntries prims uuidOf destination recursive rename manifest fs
      (es1 ++ t :: es2) = Except.error msg := by
  intro es1
  induction es1 with
  | nil =>
    intro fs rs fs1 h t es2 msg ht
    simp only [Copy.processEntries] at h
    have h2 := Except.ok.inj h
    have hfs : fs = fs1 := congrArg Prod.snd h2
    subst hfs
    simp only [List.nil_append, Copy.processEntries, ht]
  | cons e es1' ih =>
    intro fs rs fs1 h t es2 msg ht
    simp only [Copy.processEntries] at h
    cases hpt : Copy.processTree prims uuidOf destination recursive rename manifest fs e with
    | error e' => simp only [hpt] at h; exact Except.noConfusion h
    | ok r =>
      obtain ⟨rs0, fsa⟩ := r
      simp only [hpt] at h
      cases hpe : Copy.processEntries prims uuidOf destination recursive rename manifest
          fsa es1' with
      | error e' => simp only [hpe] at h; exact Except.noConfusion h
      | ok r2 =>
        obtain ⟨rs2, fs2⟩ := r2
        simp only [hpe] at h
        have h2 := Except.ok.inj h
        have hfs : fs2 = fs1 := by
          have := congrArg Prod.snd h2
          simpa using this
        rw [hfs] at hpe
        simp only [List.cons_append, Copy.processEntries, hpt, List.append_eq]
        rw [ih fsa rs2 fs1 hpe t es2 msg ht]

theorem copy_is_duplicate_some (prims : Prims) (fs : FS) (source : RPath)
    (manifest : Option (List String)) (p : RPath)
    (h : Copy.is_duplicate prims fs source manifest = Except.ok (some p)) :
    p = source := by
  cases manifest with
  | none => simp [Copy.is_duplicate] at h
  | some m =>
    cases hr : readFile fs source with
    | none =>
      simp only [Copy.is_duplicate, hr] at h
      exact Except.noConfusion h
    | some b =>
      simp only [Copy.is_duplicate, hr] at h
      exact scanChecksums_some _ _ _ _ (Except.ok.inj h)

theorem get_date_ok_read (prims : Prims) (fs : FS) (p : RPath) (d : NaiveDT)
    (h : Date.get_date prims fs p = Except.ok d) :
    ∃ bytes, readFile fs p = some bytes := by
  cases hr : readFile fs p with
  | none =>
    simp only [Date.get_date, hr] at h
    exact Except.noConfusion h
  | some b => exact ⟨b, rfl⟩

theorem generate_uuid_filename_abs (uuid : String) (original : RPath) :
    (Copy.generate_uuid_filename uuid original).absolute = false := by
  unfold Copy.generate_uuid_filename
  by_cases he : ((rustExtension original).getD "").isEmpty <;> simp [he, relFile]

theorem targetFileName_abs (uuid : String) (source : RPath) (rename : Bool)
    (fn : RPath) (h : Copy.targetFileName uuid source rename = Except.ok fn) :
    fn.absolute = false := by
  unfold Copy.targetFileName at h
  cases rename with
  | true =>
    simp only [if_true] at h
    rw [← Except.ok.inj h]
    exact generate_uuid_filename_abs uuid source
  | false =>
    simp only [Bool.false_eq_true, if_false] at h
    cases hn : fileName source with
    | some name =>
      rw [hn] at h
      rw [← Except.ok.inj h]
      rfl
    | none => rw [hn] at h; exact Except.noConfusion h

/-! ## Claims -/

/-- C1: for every source file and supplied manifest, `is_duplicate` reads
the file's full contents, digests them with the manifest's recorded
algorithm, and returns the source path itself exactly when that digest
is string-equal (case-sensitively) to some entry of the manifest's
checksum collection; with no manifest it returns no match for any
file. -/
theorem claim_C1 (prims : Prims) (fs : FS) (source : RPath) :
    Manifest.is_duplicate prims fs source none = Except.ok none ∧
    (∀ (m : Manifest.Manifest) (bytes : List Nat), readFile fs source = some bytes →
      Manifest.is_duplicate prims fs source (some m) =
        Except.ok
          (if m.checksums.contains (Manifest.calculate_hash prims m.algorithm bytes)
           then some source else none)) := by
  constructor
  · rfl
  · intro m bytes hr
    simp only [Manifest.is_duplicate, hr, scanChecksums_eq]

/-- Digest primitives for the C1 witness: SHA256 of anything is the
lower-case string `abc`. -/
def exC1prims : Prims := ⟨fun _ => none, fun _ => "", fun _ => "abc", fun _ => ""⟩

/-- Source path for the C1 witness. -/
def exC1src : RPath := ⟨true, ["data", "file.bin"]⟩

/-- Filesystem for the C1 witness: one readable file. -/
def exC1fs : FS := ⟨[(exC1src, [1, 2, 3])], [], []⟩

/-- C1 witness: a manifest listing the digest matches and returns the
source; a manifest listing only the upper-case variant of the digest
does not match (exact, case-sensitive comparison). -/
theorem claim_C1_witness :
    Manifest.is_duplicate exC1prims exC1fs exC1src
      (some ⟨["ABC", "abc"], Manifest.HashAlgorithm.SHA256⟩) =
        Except.ok (some exC1src) ∧
    Manifest.is_duplicate exC1prims exC1fs exC1src
      (some ⟨["ABC"], Manifest.HashAlgorithm.SHA256⟩) = Except.ok none := by
  constructor
  · rw [(claim_C1 exC1prims exC1fs exC1src).2
      ⟨["ABC", "abc"], Manifest.HashAlgorithm.SHA256⟩ [1, 2, 3] (by decide)]
    rfl
  · rw [(claim_C1 exC1prims exC1fs exC1src).2
      ⟨["ABC"], Manifest.HashAlgorithm.SHA256⟩ [1, 2, 3] (by decide)]
    rfl

/-- C2 (amended): date resolution returns the embedded date whenever the
contents are readable and the EXIF field is present and parses with the
fixed pattern, regardless of filesystem timestamps; when the contents
are readable but no parseable embedded date exists it returns the
modification time; it fails exactly when the contents cannot be read or
when, lacking an embedded date, the filesystem metadata cannot be
read. -/
theorem claim_C2 (prims : Prims) (fs : FS) (p : RPath) :
    (∀ bytes s d, readFile fs p = some bytes → prims.exifRead bytes = some s →
      parseNdt s = some d → Date.get_date prims fs p = Except.ok d) ∧
    (∀ bytes t, readFile fs p = some bytes →
      (prims.exifRead bytes).bind (fun q => parseNdt q) = none →
      readMtime fs p = some t → Date.get_date prims fs p = Except.ok t) ∧
    (∀ msg, Date.get_date prims fs p = Except.error msg →
      readFile fs p = none ∨ readMtime fs p = none) ∧
    (readFile fs p = none →
      Date.get_date prims fs p =
        Except.error "No such file or directory (os error 2)") ∧
    (∀ bytes, readFile fs p = some bytes →
      (prims.exifRead bytes).bind (fun q => parseNdt q) = none →
      readMtime fs p = none →
      Date.get_date prims fs p = Except.error "file metadata is unavailable") := by
  refine ⟨?_, ?_, ?_, ?_, ?_⟩
  · intro bytes s d hr hx hp
    have hb : (prims.exifRead bytes).bind (fun q => parseNdt q) = some d := by
      rw [hx]; exact hp
    simp only [Date.get_date, hr, hb]
  · intro bytes t hr hb hm
    simp only [Date.get_date, hr, hb, hm]
  · intro msg h
    cases hr : readFile fs p with
    | none => exact Or.inl rfl
    | some bytes =>
      simp only [Date.get_date, hr] at h
      cases hx : (prims.exifRead bytes).bind (fun q => parseNdt q) with
      | some d => simp only [hx] at h; exact Except.noConfusion h
      | none =>
        simp only [hx] at h
        cases hm : readMtime fs p with
        | none => exact Or.inr rfl
        | some t => simp only [hm] at h; exact Except.noConfusion h
  · intro hr
    simp only [Date.get_date, hr]
  · intro bytes hr hb hm
    simp only [Date.get_date, hr, hb, hm]

/-- Primitives for the C2 counterexample: no EXIF field ever decodes. -/
def exC2prims : Prims := ⟨fun _ => none, fun _ => "", fun _ => "", fun _ => ""⟩

/-- Path for the C2 counterexample and witness. -/
def exC2path : RPath := ⟨true, ["img", "x.jpg"]⟩

/-- Filesystem for the C2 counterexample: the file's contents cannot be
read, but its modification time can. -/
def exC2fs : FS := ⟨[], [(exC2path, ⟨2024, 1, 2, 3, 4, 5⟩)], []⟩

/-- C2 counterexample: the filesystem metadata (modification time) is
readable, and the file has no parseable embedded date, yet `get_date`
does not return the modification time — it fails, because the initial
full-content read fails.  This refutes the claim that resolution
returns the modification time for every file lacking a parseable
embedded date and fails only when the filesystem metadata cannot be
read. -/
theorem claim_C2_counterexample :
    readMtime exC2fs exC2path = some ⟨2024, 1, 2, 3, 4, 5⟩ ∧
    Date.get_date exC2prims exC2fs exC2path =
      Except.error "No such file or directory (os error 2)" :=
  ⟨rfl, rfl⟩

/-- Primitives for the C2 witness: the EXIF field decodes to a fixed
parseable date string. -/
def exC2primsB : Prims :=
  ⟨fun _ => some "2020-12-26 15:30:00", fun _ => "", fun _ => "", fun _ => ""⟩

/-- Filesystem for the C2 witness: contents readable and a modification
time of 1999 that must lose to the embedded 2020 date. -/
def exC2fsB : FS := ⟨[(exC2path, [7])], [(exC2path, ⟨1999, 1, 1, 0, 0, 0⟩)], []⟩

/-- C2 witness: the embedded date wins over a differing modification
time. -/
theorem claim_C2_witness :
    Date.get_date exC2primsB exC2fsB exC2path =
      Except.ok ⟨2020, 12, 26, 15, 30, 0⟩ :=
  (claim_C2 exC2primsB exC2fsB exC2path).1 [7] "2020-12-26 15:30:00"
    ⟨2020, 12, 26, 15, 30, 0⟩ (by decide) rfl (by decide)

/-- C3: when the duplicate check matches, the copy-one step returns the
unmodified source path and leaves the filesystem state entirely
unchanged (no copy, no directories); when it does not match and the
step succeeds, the destination file exists afterwards with the source's
bytes. -/
theorem claim_C3 (prims : Prims) (uuid : String) (fs : FS)
    (source destination : RPath) (rename : Bool) (manifest : Option (List String)) :
    (∀ p, Copy.is_duplicate prims fs source manifest = Except.ok (some p) →
      Copy.copy_file prims uuid fs source destination rename manifest =
        Except.ok (p, fs) ∧ p = source) ∧
    (∀ tgt fs', Copy.is_duplicate prims fs source manifest = Except.ok none →
      Copy.copy_file prims uuid fs source destination rename manifest =
        Except.ok (tgt, fs') →
      readFile fs' tgt = readFile fs source ∧ readFile fs source ≠ none) := by
  constructor
  · intro p hd
    refine ⟨?_, copy_is_duplicate_some prims fs source manifest p hd⟩
    simp only [Copy.copy_file, hd]
  · intro tgt fs' hd hc
    simp only [Copy.copy_file, hd] at hc
    cases hg : Date.get_date prims fs source with
    | error e => simp only [hg] at hc; exact Except.noConfusion hc
    | ok date =>
      simp only [hg] at hc
      cases hf : Copy.targetFileName uuid source rename with
      | error e => simp only [hf] at hc; exact Except.noConfusion hc
      | ok fn =>
        simp only [hf] at hc
        cases hr : readFile (create_dir_all fs
            (joinPath destination (pathFromString (Copy.formatDatePath date)))) source with
        | none => simp only [hr] at hc; exact Except.noConfusion hc
        | some bytes =>
          simp only [hr] at hc
          have h2 := Except.ok.inj hc
          have htgt := congrArg Prod.fst h2
          have hfs := congrArg Prod.snd h2
          simp only at htgt hfs
          have hsrc : readFile fs source = some bytes := hr
          constructor
          · rw [← htgt, ← hfs, readFile_writeFile_self, hsrc]
          · rw [hsrc]; simp

/-- Primitives for the C3 witness: MD5 of anything is `d`. -/
def exC3prims : Prims := ⟨fun _ => none, fun _ => "d", fun _ => "", fun _ => ""⟩

/-- Source path for the C3 witness. -/
def exC3src : RPath := ⟨true, ["s", "a.bin"]⟩

/-- Filesystem for the C3 witness. -/
def exC3fs : FS := ⟨[(exC3src, [7])], [], []⟩

/-- C3 witness: with a manifest containing the file's digest, the copy
step returns the source path itself and the filesystem is returned
untouched. -/
theorem claim_C3_witness :
    Copy.copy_file exC3prims "u" exC3fs exC3src ⟨true, ["dst"]⟩ false (some ["d"]) =
      Except.ok (exC3src, exC3fs) :=
  ((claim_C3 exC3prims "u" exC3fs exC3src ⟨true, ["dst"]⟩ false
    (some ["d"])).1 exC3src rfl).1

/-- C4: for a non-duplicate file whose date resolves to `d` and whose
file-name selection succeeds, the destination path is the configured
destination joined with the relative directory
`<year>/<2-digit month>/<2-digit day>` — month and day zero-padded to
width 2, year in its natural unpadded decimal rendering — followed by
the destination file name. -/
theorem claim_C4 (prims : Prims) (uuid : String) (fs : FS)
    (source destination : RPath) (rename : Bool) (manifest : Option (List String))
    (d : NaiveDT) (fn : RPath)
    (hd : Copy.is_duplicate prims fs source manifest = Except.ok none)
    (hg : Date.get_date prims fs source = Except.ok d)
    (hf : Copy.targetFileName uuid source rename = Except.ok fn) :
    Except.map Prod.fst (Copy.copy_file prims uuid fs source destination rename manifest) =
      Except.ok (⟨destination.absolute,
        destination.comps ++ [intStr d.year, pad2 d.month, pad2 d.day] ++ fn.comps⟩ :
          RPath) := by
  obtain ⟨bytes, hb⟩ := get_date_ok_read prims fs source d hg
  have hfab := targetFileName_abs uuid source rename fn hf
  simp only [Copy.copy_file, hd, hg, hf, pathFromString_formatDatePath,
    readFile_create_dir_all, hb]
  simp [Except.map, joinPath, hfab, List.append_assoc]

/-- Primitives for the C4 witness: a fixed parseable embedded date. -/
def exC4prims : Prims :=
  ⟨fun _ => some "2021-03-05 01:02:03", fun _ => "", fun _ => "", fun _ => ""⟩

/-- Source path for the C4 witness. -/
def exC4src : RPath := ⟨true, ["s", "photo.jpg"]⟩

/-- Filesystem for the C4 witness. -/
def exC4fs : FS := ⟨[(exC4src, [9])], [], []⟩

/-- C4 witness: embedded date 2021-03-05 produces the destination
`/d/2021/03/05/photo.jpg` — month and day zero-padded, year natural. -/
theorem claim_C4_witness :
    Except.map Prod.fst
        (Copy.copy_file exC4prims "u" exC4fs exC4src ⟨true, ["d"]⟩ false none) =
      Except.ok (⟨true, ["d", "2021", "03", "05", "photo.jpg"]⟩ : RPath) := by
  rw [claim_C4 exC4prims "u" exC4fs exC4src ⟨true, ["d"]⟩ false none
    ⟨2021, 3, 5, 1, 2, 3⟩ (relFile "photo.jpg") rfl rfl rfl]
  rfl

/-- C5: a directory reached with the recursive flag unset makes the
whole operation fail with the distinctly worded error naming the path
(sibling results already computed are discarded); and since every
derived config of a recursive descent keeps the recursive flag true,
no directory nested under an already-recursive ancestor can ever
produce that error — every error surfacing from a recursive run is a
per-file copy error that never mentions the recursion flag. -/
theorem claim_C5 (prims : Prims) (uuidOf : RPath → String) (destination : RPath)
    (rename : Bool) (manifest : Option (List String)) :
    (∀ fs p es,
      Copy.processTree prims uuidOf destination false rename manifest fs
          (Copy.FTree.dir p es) = Except.error (Copy.dirErrMsg p) ∧
      containsSubstr (Copy.dirErrMsg p) (pathDisplay p) = true) ∧
    (∀ p es1 fs rs fs1 t es2 msg,
      Copy.processEntries prims uuidOf destination true rename manifest fs es1 =
        Except.ok (rs, fs1) →
      Copy.processTree prims uuidOf destination true rename manifest fs1 t =
        Except.error msg →
      Copy.processTree prims uuidOf destination true rename manifest fs
        (Copy.FTree.dir p (es1 ++ t :: es2)) = Except.error msg) ∧
    (∀ fs t msg,
      Copy.processTree prims uuidOf destination true rename manifest fs t =
        Except.error msg →
      containsSubstr msg "Use --recursive" = false) := by
  refine ⟨?_, ?_, ?_⟩
  · intro fs p es
    constructor
    · simp [Copy.processTree]
    · exact containsSubstr_middle "'" (pathDisplay p)
        "' is a directory. Use --recursive to process directories"
  · intro p es1 fs rs fs1 t es2 msg h1 h2
    simp only [Copy.processTree, if_true]
    exact processEntries_append_err prims uuidOf destination true rename manifest
      es1 fs rs fs1 h1 t es2 msg h2
  · intro fs t msg h
    exact copyFileErrs_no_marker msg
      (processTree_err_mem prims uuidOf destination rename manifest
        (sizeOf t) t le_rfl fs msg h)

/-- Primitives for the C5 witness. -/
def exC5prims : Prims := ⟨fun _ => none, fun _ => "", fun _ => "", fun _ => ""⟩

/-- A path whose file cannot be read, for the C5 witness. -/
def exC5file : RPath := ⟨true, ["miss"]⟩

/-- C5 witness: a failing file inside a recursive run aborts the whole
directory (the sibling-discarding propagation) and its error does not
mention the recursion flag. -/
theorem claim_C5_witness :
    Copy.processTree exC5prims (fun _ => "u") ⟨true, ["d"]⟩ true false none
        ⟨[], [], []⟩
        (Copy.FTree.dir ⟨true, ["top"]⟩ [Copy.FTree.file exC5file]) =
      Except.error "No such file or directory (os error 2)" ∧
    containsSubstr "No such file or directory (os error 2)" "Use --recursive" =
      false := by
  have hfile : Copy.processTree exC5prims (fun _ => "u") ⟨true, ["d"]⟩ true false none
      ⟨[], [], []⟩ (Copy.FTree.file exC5file) =
      Except.error "No such file or directory (os error 2)" := by
    simp only [Copy.processTree]
    rfl
  constructor
  · exact (claim_C5 exC5prims (fun _ => "u") ⟨true, ["d"]⟩ false none).2.1
      ⟨true, ["top"]⟩ [] ⟨[], [], []⟩ [] ⟨[], [], []⟩ (Copy.FTree.file exC5file) []
      "No such file or directory (os error 2)" (by simp [Copy.processEntries]) hfile
  · exact (claim_C5 exC5prims (fun _ => "u") ⟨true, ["d"]⟩ false none).2.2
      ⟨[], [], []⟩ (Copy.FTree.file exC5file)
      "No such file or directory (os error 2)" hfile

/-- C6: manifest loading fails with the "manifest empty" error exactly
when the text has zero non-empty (after trimming) lines; otherwise it
succeeds and the checksum collection is, in line order, the first
whitespace-delimited token of each non-empty line, remaining tokens
ignored. -/
theorem claim_C6 (path : RPath) (content : String) :
    (Manifest.manifestLines content = [] →
      Manifest.parse_manifest path content = Except.error "Manifest file is empty") ∧
    (Manifest.manifestLines content ≠ [] →
      Manifest.parse_manifest path content =
        Except.ok ⟨(Manifest.manifestLines content).map tokenOf,
          (Manifest.from_filename path).1⟩) := by
  constructor
  · intro h
    unfold Manifest.parse_manifest
    rw [h]
    rfl
  · intro h
    have hmt := mapTokens_ok (Manifest.manifestLines content)
      (fun l hl => mem_manifestLines_trim content l hl)
    have hne : ((Manifest.manifestLines content).map tokenOf).isEmpty = false := by
      cases hml : Manifest.manifestLines content with
      | nil => exact absurd hml h
      | cons a t => simp
    simp only [Manifest.parse_manifest, hmt, hne]
    simp

/-- Manifest path for the C6 witness. -/
def exC6path : RPath := ⟨false, ["manifest-md5.txt"]⟩

/-- C6 witness: two non-empty lines (one blank line between, a trailing
newline, and a second token on the first line) yield the two first
tokens in order, with MD5 selected from the file name. -/
theorem claim_C6_witness :
    Manifest.parse_manifest exC6path "abc def\n\nxyz\n" =
      Except.ok ⟨["abc", "xyz"], Manifest.HashAlgorithm.MD5⟩ := by
  rw [(claim_C6 exC6path "abc def\n\nxyz\n").2 (by decide)]
  rfl

/-- C7 (amended): with the rename flag, the destination file name is the
lowercased 36-character hex-and-dash identifier of the freshly drawn
uuid, with the source's extension appended verbatim after a dot when
the source has a nonempty extension and no extension segment otherwise,
and this computation never fails; without the rename flag the source's
own file name is reused verbatim, and the computation fails exactly when
the source path has no file-name component. -/
theorem claim_C7 (uuid : String) (source : RPath) :
    (∀ name, fileName source = some name →
      Copy.targetFileName uuid source false = Except.ok (relFile name)) ∧
    (fileName source = none →
      Copy.targetFileName uuid source false =
        Except.error "Source file has no name") ∧
    (isUuidStr uuid = true →
      ((rustExtension source).getD "" = "" →
        Copy.targetFileName uuid source true = Except.ok (relFile uuid)) ∧
      (∀ e, rustExtension source = some e → e ≠ "" →
        Copy.targetFileName uuid source true =
          Except.ok (relFile (uuid ++ "." ++ e))) ∧
      uuid.data.length = 36 ∧
      (∀ c ∈ uuid.data, isLowerHexDigit c = true ∨ c = '-')) := by
  refine ⟨?_, ?_, ?_⟩
  · intro name hn
    simp [Copy.targetFileName, hn]
  · intro hn
    simp [Copy.targetFileName, hn]
  · intro hu
    have hal : asciiLower uuid = uuid := asciiLower_of_uuid uuid hu
    refine ⟨?_, ?_, uuid_length uuid hu, uuidHyphenated_chars uuid.data 0 hu⟩
    · intro he
      have hte : ("" : String).isEmpty = true := rfl
      simp [Copy.targetFileName, Copy.generate_uuid_filename, he, hal, hte]
    · intro e he hne
      have hemp : e.isEmpty = false := by
        cases hb : e.isEmpty with
        | false => rfl
        | true => exact absurd ((String.isEmpty_iff e).mp hb) hne
      simp [Copy.targetFileName, Copy.generate_uuid_filename, he, hal, hemp]

/-- A concrete hyphenated-lowercase uuid rendering. -/
def exUuid : String := "123e4567-e89b-42d3-a456-426614174000"

/-- C7 counterexample: for a source path with no file-name component at
all (the root), the file-name computation under the rename flag
succeeds — returning the bare generated identifier — rather than
failing as the claim states. -/
theorem claim_C7_counterexample :
    fileName rootPath = none ∧
    Copy.targetFileName exUuid rootPath true = Except.ok (relFile exUuid) :=
  ⟨rfl, rfl⟩

/-- C7 witness: a source named `photo.JPG` yields the 36-character
identifier plus the verbatim `.JPG` extension. -/
theorem claim_C7_witness :
    Copy.targetFileName exUuid ⟨false, ["photo.JPG"]⟩ true =
      Except.ok (relFile (exUuid ++ "." ++ "JPG")) :=
  ((claim_C7 exUuid ⟨false, ["photo.JPG"]⟩).2.2 (by decide)).2.1 "JPG"
    (by decide) (by decide)

/-- C8: algorithm selection inspects the manifest file name for the
substrings `md5`, `sha256`, `sha512` in that fixed order with the first
match winning; when none occurs it selects SHA256 and flags the
non-fatal warning.  Selection is a total function — it never fails. -/
theorem claim_C8 (path : RPath) :
    (containsSubstr ((fileName path).getD "") "md5" = true →
      Manifest.from_filename path = (Manifest.HashAlgorithm.MD5, false)) ∧
    (containsSubstr ((fileName path).getD "") "md5" = false →
      containsSubstr ((fileName path).getD "") "sha256" = true →
      Manifest.from_filename path = (Manifest.HashAlgorithm.SHA256, false)) ∧
    (containsSubstr ((fileName path).getD "") "md5" = false →
      containsSubstr ((fileName path).getD "") "sha256" = false →
      containsSubstr ((fileName path).getD "") "sha512" = true →
      Manifest.from_filename path = (Manifest.HashAlgorithm.SHA512, false)) ∧
    (containsSubstr ((fileName path).getD "") "md5" = false →
      containsSubstr ((fileName path).getD "") "sha256" = false →
      containsSubstr ((fileName path).getD "") "sha512" = false →
      Manifest.from_filename path = (Manifest.HashAlgorithm.SHA256, true)) := by
  refine ⟨?_, ?_, ?_, ?_⟩
  · intro h1
    simp [Manifest.from_filename, h1]
  · intro h1 h2
    simp [Manifest.from_filename, h1, h2]
  · intro h1 h2 h3
    simp [Manifest.from_filename, h1, h2, h3]
  · intro h1 h2 h3
    simp [Manifest.from_filename, h1, h2, h3]

/-- C8 witness: the four file names of the spec's detection table,
including that a name containing `md5` beats one also containing
another marker. -/
theorem claim_C8_witness :
    Manifest.from_filename ⟨false, ["manifest-md5.txt"]⟩ =
      (Manifest.HashAlgorithm.MD5, false) ∧
    Manifest.from_filename ⟨false, ["manifest-sha256.txt"]⟩ =
      (Manifest.HashAlgorithm.SHA256, false) ∧
    Manifest.from_filename ⟨false, ["manifest-sha512.txt"]⟩ =
      (Manifest.HashAlgorithm.SHA512, false) ∧
    Manifest.from_filename ⟨false, ["manifest-xyz.txt"]⟩ =
      (Manifest.HashAlgorithm.SHA256, true) ∧
    Manifest.from_filename ⟨false, ["sha256-md5.txt"]⟩ =
      (Manifest.HashAlgorithm.MD5, false) :=
  ⟨(claim_C8 ⟨false, ["manifest-md5.txt"]⟩).1 (by decide),
   (claim_C8 ⟨false, ["manifest-sha256.txt"]⟩).2.1 (by decide) (by decide),
   (claim_C8 ⟨false, ["manifest-sha512.txt"]⟩).2.2.1 (by decide) (by decide)
     (by decide),
   (claim_C8 ⟨false, ["manifest-xyz.txt"]⟩).2.2.2 (by decide) (by decide)
     (by decide),
   (claim_C8 ⟨false, ["sha256-md5.txt"]⟩).1 (by decide)⟩

/-- C9: a config path that is neither a regular file nor a directory
(non-existent, socket, dangling symlink, ...) is silently skipped:
processing returns successfully with no result entries and the
filesystem unchanged, for every configuration. -/
theorem claim_C9 (prims : Prims) (uuidOf : RPath → String) (destination : RPath)
    (recursive rename : Bool) (manifest : Option (List String)) (fs : FS)
    (p : RPath) :
    Copy.processTree prims uuidOf destination recursive rename manifest fs
      (Copy.FTree.other p) = Except.ok ([], fs) := by
  simp [Copy.processTree]

/-- C10: every line retained by the non-empty-line filter splits into at
least one whitespace-delimited token, so the `parts[0]` indexing never
reaches its out-of-bounds branch: it yields the first token for every
trimmed-nonempty line, and the token mapping over the filtered lines of
any manifest text never errors. -/
theorem claim_C10 :
    (∀ line : String, (rustTrim line).isEmpty = false →
      Manifest.firstToken line = Except.ok (tokenOf line)) ∧
    (∀ content : String,
      Manifest.mapTokens (Manifest.manifestLines content) =
        Except.ok ((Manifest.manifestLines content).map tokenOf)) :=
  ⟨firstToken_ok,
   fun content => mapTokens_ok (Manifest.manifestLines content)
     (fun l hl => mem_manifestLines_trim content l hl)⟩

/-- C10 witness: a line with leading whitespace and two tokens yields
its first token rather than an out-of-bounds error. -/
theorem claim_C10_witness :
    Manifest.firstToken "  3b5d  data/file1.txt" = Except.ok "3b5d" := by
  rw [claim_C10.1 "  3b5d  data/file1.txt" (by decide)]
  rfl

end Machiver



